import Mathlib

/-!
# Verification of the moving-average crossover trading pipeline (src/app.py)

Shallow embedding of the numeric core of the application: the indicator
engine (`calculate_indicators`), the backtest (`backtest_strategy`), the
risk-analysis block and the paper-trading simulation loop.

Modelling conventions:
* A pandas column is a `List (Option ℚ)`; `none` stands for NaN.
* Machine floats are modelled by exact rationals.  Where the source relies
  on IEEE special values (`x / 0.0`, comparisons against NaN) the embedding
  makes the float semantics explicit at that point: a comparison involving
  NaN is `false`, `g / 0` is `+∞` for `g > 0` (so `100 - 100/(1+∞) = 100`)
  and `0 / 0` is NaN.
* A DataFrame is an association list of named columns; assigning a column
  replaces it in place (then appends at the end when absent), exactly like
  `data['X'] = ...` in the source.
-/

set_option autoImplicit false

namespace Algo

/-- A pandas column: one optional rational per bar, `none` = NaN. -/
abbrev Col := List (Option ℚ)

/-- Multiplication with NaN propagation: `NaN * x = NaN`. -/
def omul : Option ℚ → Option ℚ → Option ℚ
  | some a, some b => some (a * b)
  | _, _ => none

/-- Subtraction with NaN propagation. -/
def osub : Option ℚ → Option ℚ → Option ℚ
  | some a, some b => some (a - b)
  | _, _ => none

/-- Strict float comparison: any comparison involving NaN is `false`
(numpy semantics of `a > b` on NaN operands). -/
def oGt : Option ℚ → Option ℚ → Bool
  | some a, some b => decide (b < a)
  | _, _ => false

/-- `Close.pct_change()` (line 157): NaN at bar 0, then
`Close[i]/Close[i-1] - 1`; NaN whenever either close is NaN. -/
def pctChange (closes : Col) : Col :=
  (List.range closes.length).map fun i =>
    if i = 0 then none
    else match closes.getD i none, closes.getD (i - 1) none with
      | some c, some p => some (c / p - 1)
      | _, _ => none

/-- `data['Close'].diff()` (line 91): NaN at bar 0, then
`Close[i] - Close[i-1]`. -/
def pdiff (closes : Col) : Col :=
  (List.range closes.length).map fun i =>
    if i = 0 then none else osub (closes.getD i none) (closes.getD (i - 1) none)

/-- `series.rolling(window=w).mean()` (lines 87-88, 92-93, 144-145): the
trailing mean of the last `w` entries, NaN while fewer than `w` bars exist
or when the window contains a NaN (`min_periods` defaults to the window). -/
def rollingMean (w : ℕ) (xs : Col) : Col :=
  (List.range xs.length).map fun i =>
    if i + 1 < w then none
    else if ((xs.take (i + 1)).drop (i + 1 - w)).all Option.isSome
    then some ((((xs.take (i + 1)).drop (i + 1 - w)).filterMap id).sum / (w : ℚ))
    else none

/-- Lines 151-153: `data['Signal'] = 0` then
`data['Signal'][sma_short:] = np.where(SMA_short[...] > SMA_long[...], 1, 0)`.
Bars before `sma_short` keep the initial 0; from `sma_short` on the signal is
1 exactly when the short average is strictly greater (NaN compares false). -/
def signalList (w n : ℕ) (short long : Col) : List ℚ :=
  (List.range n).map fun i =>
    if i < w then 0
    else if oGt (short.getD i none) (long.getD i none) then 1 else 0

/-- `data['Signal'].diff()` (line 154): NaN at bar 0, then
`Signal[i] - Signal[i-1]` (the signal column itself holds no NaN). -/
def positionList (sig : List ℚ) : Col :=
  (List.range sig.length).map fun i =>
    if i = 0 then none else some (sig.getD i 0 - sig.getD (i - 1) 0)

/-- `data['Position'].shift(1) * data['Daily_Return']` (line 158): the
position lagged one bar times the daily return, with NaN propagation. -/
def strategyReturn (pos dr : Col) : Col :=
  (List.range dr.length).map fun i =>
    omul (if i = 0 then none else pos.getD (i - 1) none) (dr.getD i none)

/-- `series.cumprod()` (lines 159-160) with pandas skip-NaN semantics:
NaN positions stay NaN, defined positions hold the product of all defined
entries up to and including that bar. -/
def pcumprod (xs : Col) : Col :=
  (List.range xs.length).map fun i =>
    match xs.getD i none with
    | none => none
    | some _ => some (((xs.take (i + 1)).filterMap id).prod)

/-- `1 + series` lifted over NaN. -/
def onePlus (xs : Col) : Col := xs.map fun x => x.map (fun v => 1 + v)

/-- Index arithmetic for columns built over `List.range`. -/
theorem getD_range_map {α : Type} (f : ℕ → α) (n i : ℕ) (h : i < n) (d : α) :
    (((List.range n).map f).getD i d) = f i := by
  rw [List.getD_eq_getElem?_getD]
  rw [List.getElem?_map]
  rw [List.getElem?_range h]
  rfl

theorem getD_map_some (xs : List ℚ) (i : ℕ) (h : i < xs.length) :
    ((xs.map some).getD i none) = some (xs.getD i 0) := by
  rw [List.getD_eq_getElem?_getD, List.getD_eq_getElem?_getD]
  rw [List.getElem?_map]
  rw [List.getElem?_eq_getElem h]
  rfl

theorem oGt_none_left (b : Option ℚ) : oGt none b = false := by
  cases b <;> rfl

/-- C3, part 1: the signal is always 0 or 1. -/
theorem signal_mem_zero_one (w n : ℕ) (short long : Col) (i : ℕ) (hi : i < n) :
    (signalList w n short long).getD i 0 = 0 ∨
    (signalList w n short long).getD i 0 = 1 := by
  unfold signalList
  rw [getD_range_map _ n i hi]
  split
  · exact Or.inl rfl
  · split
    · exact Or.inr rfl
    · exact Or.inl rfl

/-- C3: the generated `Signal` column is 0/1-valued, forced to 0 on every
bar before the short window `w` regardless of the SMA values there, and for
`i ≥ w` equals 1 exactly when `SMA_short[i] > SMA_long[i]`, a comparison
against an undefined SMA counting as not-greater. -/
theorem c3_signal_column (w n : ℕ) (short long : Col) (i : ℕ) (hi : i < n) :
    ((signalList w n short long).getD i 0 = 0 ∨
      (signalList w n short long).getD i 0 = 1) ∧
    (i < w → (signalList w n short long).getD i 0 = 0) ∧
    (w ≤ i → (signalList w n short long).getD i 0 =
      (if oGt (short.getD i none) (long.getD i none) then 1 else 0)) ∧
    (short.getD i none = none → w ≤ i →
      (signalList w n short long).getD i 0 = 0) := by
  refine ⟨signal_mem_zero_one w n short long i hi, ?_, ?_, ?_⟩
  · intro hw
    unfold signalList
    rw [getD_range_map _ n i hi]
    simp [hw]
  · intro hw
    unfold signalList
    rw [getD_range_map _ n i hi]
    simp [Nat.not_lt.mpr hw]
  · intro hnone hw
    unfold signalList
    rw [getD_range_map _ n i hi]
    rw [if_neg (Nat.not_lt.mpr hw), hnone, oGt_none_left]
    rfl

/-- Witness for C3 at concrete data: window 2, five bars. -/
theorem c3_signal_column_witness :
    ((signalList 2 5 [some 1, some 2, some 3, some 1, none]
        [some 1, some 1, some 1, some 2, some 2]).getD 2 0 = 0 ∨
      (signalList 2 5 [some 1, some 2, some 3, some 1, none]
        [some 1, some 1, some 1, some 2, some 2]).getD 2 0 = 1) ∧
    (2 < 2 → (signalList 2 5 [some 1, some 2, some 3, some 1, none]
        [some 1, some 1, some 1, some 2, some 2]).getD 2 0 = 0) ∧
    (2 ≤ 2 → (signalList 2 5 [some 1, some 2, some 3, some 1, none]
        [some 1, some 1, some 1, some 2, some 2]).getD 2 0 =
      (if oGt ([some 1, some 2, some 3, some 1, none].getD 2 none)
          ([some 1, some 1, some 1, some 2, some 2].getD 2 none)
        then 1 else 0)) ∧
    (([some 1, some 2, some 3, some 1, none] : Col).getD 2 none = none →
      2 ≤ 2 →
      (signalList 2 5 [some 1, some 2, some 3, some 1, none]
        [some 1, some 1, some 1, some 2, some 2]).getD 2 0 = 0) :=
  c3_signal_column 2 5 [some 1, some 2, some 3, some 1, none]
    [some 1, some 1, some 1, some 2, some 2] 2 (by decide)

theorem omul_none_left (b : Option ℚ) : omul none b = none := by
  cases b <;> rfl

theorem length_pctChange (xs : Col) : (pctChange xs).length = xs.length := by
  simp [pctChange]

theorem length_signalList (w n : ℕ) (s l : Col) :
    (signalList w n s l).length = n := by
  simp [signalList]

theorem length_positionList (sig : List ℚ) :
    (positionList sig).length = sig.length := by
  simp [positionList]

theorem length_strategyReturn (pos dr : Col) :
    (strategyReturn pos dr).length = dr.length := by
  simp [strategyReturn]

/-- C1: the strategy return column is NaN at bar 0, and at every bar
`i ≥ 1` equals the position of bar `i-1` (a signal delta in `{-1,0,1}`
wherever it is defined) times the daily return
`Close[i]/Close[i-1] - 1` of bar `i`, with NaN propagation. -/
theorem c1_strategy_return (closes : List ℚ) (w : ℕ) (short long : Col)
    (_hpos : ∀ c ∈ closes, 0 < c) (i : ℕ) (h1 : 1 ≤ i)
    (hi : i < closes.length) :
    (strategyReturn (positionList (signalList w closes.length short long))
        (pctChange (closes.map some))).getD 0 none = none ∧
    (strategyReturn (positionList (signalList w closes.length short long))
        (pctChange (closes.map some))).getD i none =
      omul ((positionList (signalList w closes.length short long)).getD
          (i - 1) none)
        ((pctChange (closes.map some)).getD i none) ∧
    (pctChange (closes.map some)).getD i none =
      some (closes.getD i 0 / closes.getD (i - 1) 0 - 1) ∧
    (∃ d : ℚ,
      (positionList (signalList w closes.length short long)).getD i none =
        some d ∧ (d = -1 ∨ d = 0 ∨ d = 1)) := by
  have hlen : (pctChange (closes.map some)).length = closes.length := by
    rw [length_pctChange, List.length_map]
  have hi' : i - 1 < closes.length := lt_of_le_of_lt (Nat.sub_le i 1) hi
  have h0 : 0 < closes.length := lt_of_le_of_lt (Nat.zero_le i) hi
  have hne : i ≠ 0 := Nat.one_le_iff_ne_zero.mp h1
  refine ⟨?_, ?_, ?_, ?_⟩
  · unfold strategyReturn
    rw [getD_range_map _ _ 0 (by rw [hlen]; exact h0)]
    rw [if_pos rfl, omul_none_left]
  · unfold strategyReturn
    rw [getD_range_map _ _ i (by rw [hlen]; exact hi)]
    rw [if_neg hne]
  · unfold pctChange
    rw [getD_range_map _ _ i (by rw [List.length_map]; exact hi)]
    rw [if_neg hne]
    rw [getD_map_some closes i hi, getD_map_some closes (i - 1) hi']
  · unfold positionList
    rw [getD_range_map _ _ i (by rw [length_signalList]; exact hi)]
    rw [if_neg hne]
    refine ⟨_, rfl, ?_⟩
    rcases signal_mem_zero_one w closes.length short long i hi with ha | ha <;>
      rcases signal_mem_zero_one w closes.length short long (i - 1) hi'
        with hb | hb <;>
      rw [ha, hb] <;> norm_num

/-- Witness for C1 at closes `[100, 110, 99]`, window 1, bar 1. -/
theorem c1_strategy_return_witness :
    (strategyReturn
        (positionList (signalList 1 ([(100 : ℚ), 110, 99]).length
          [some 1, some 2, some 3] [some 0, some 0, some 9]))
        (pctChange (([(100 : ℚ), 110, 99]).map some))).getD 0 none = none ∧
    (strategyReturn
        (positionList (signalList 1 ([(100 : ℚ), 110, 99]).length
          [some 1, some 2, some 3] [some 0, some 0, some 9]))
        (pctChange (([(100 : ℚ), 110, 99]).map some))).getD 2 none =
      omul ((positionList (signalList 1 ([(100 : ℚ), 110, 99]).length
          [some 1, some 2, some 3] [some 0, some 0, some 9])).getD
          (2 - 1) none)
        ((pctChange (([(100 : ℚ), 110, 99]).map some)).getD 2 none) ∧
    (pctChange (([(100 : ℚ), 110, 99]).map some)).getD 2 none =
      some (([(100 : ℚ), 110, 99]).getD 2 0 /
        ([(100 : ℚ), 110, 99]).getD (2 - 1) 0 - 1) ∧
    (∃ d : ℚ,
      (positionList (signalList 1 ([(100 : ℚ), 110, 99]).length
          [some 1, some 2, some 3] [some 0, some 0, some 9])).getD 2 none =
        some d ∧ (d = -1 ∨ d = 0 ∨ d = 1)) :=
  c1_strategy_return [100, 110, 99] 1 [some 1, some 2, some 3]
    [some 0, some 0, some 9] (by norm_num) 2 (by norm_num) (by norm_num)

theorem length_onePlus (xs : Col) : (onePlus xs).length = xs.length := by
  simp [onePlus]

theorem getD_onePlus (xs : Col) (k : ℕ) (h : k < xs.length) :
    (onePlus xs).getD k none = (xs.getD k none).map (fun v => 1 + v) := by
  unfold onePlus
  rw [List.getD_eq_getElem?_getD, List.getD_eq_getElem?_getD,
    List.getElem?_map, List.getElem?_eq_getElem h]
  rfl

theorem pctChange_getD_zero (xs : Col) (h : 0 < xs.length) :
    (pctChange xs).getD 0 none = none := by
  unfold pctChange
  rw [getD_range_map _ _ 0 h, if_pos rfl]

theorem pctChange_getD_some (closes : List ℚ) (k : ℕ) (h1 : 1 ≤ k)
    (hk : k < closes.length) :
    (pctChange (closes.map some)).getD k none =
      some (closes.getD k 0 / closes.getD (k - 1) 0 - 1) := by
  unfold pctChange
  rw [getD_range_map _ _ k (by rw [List.length_map]; exact hk)]
  rw [if_neg (Nat.one_le_iff_ne_zero.mp h1)]
  rw [getD_map_some closes k hk,
    getD_map_some closes (k - 1) (lt_of_le_of_lt (Nat.sub_le k 1) hk)]

theorem positionList_getD_zero (sig : List ℚ) (h : 0 < sig.length) :
    (positionList sig).getD 0 none = none := by
  unfold positionList
  rw [getD_range_map _ _ 0 h, if_pos rfl]

theorem strategyReturn_getD_zero (pos dr : Col) (h : 0 < dr.length) :
    (strategyReturn pos dr).getD 0 none = none := by
  unfold strategyReturn
  rw [getD_range_map _ _ 0 h, if_pos rfl, omul_none_left]

theorem strategyReturn_getD_one (pos dr : Col) (h : 1 < dr.length)
    (hp : pos.getD 0 none = none) :
    (strategyReturn pos dr).getD 1 none = none := by
  unfold strategyReturn
  rw [getD_range_map _ _ 1 h, if_neg (by decide), hp, omul_none_left]

theorem pcumprod_getD_eq_none (xs : Col) (i : ℕ) (hi : i < xs.length)
    (h : xs.getD i none = none) : (pcumprod xs).getD i none = none := by
  unfold pcumprod
  rw [getD_range_map _ _ i hi, h]

theorem pcumprod_getD_eq_some (xs : Col) (i : ℕ) (hi : i < xs.length)
    (u : ℚ) (h : xs.getD i none = some u) :
    (pcumprod xs).getD i none =
      some (((xs.take (i + 1)).filterMap id).prod) := by
  unfold pcumprod
  rw [getD_range_map _ _ i hi, h]

/-- Running the skip-NaN cumulative product over a column that is NaN at
bar 0 and holds `g k` at bars `1 ≤ k < n`: the underlying product up to
bar `i` is `∏ k ∈ [1, i], g k`. -/
theorem prod_take_formula (xs : Col) (g : ℕ → ℚ) (n : ℕ) (hlen : xs.length = n)
    (h0 : xs.getD 0 none = none)
    (hk : ∀ k, 1 ≤ k → k < n → xs.getD k none = some (g k)) :
    ∀ i, i < n → ((xs.take (i + 1)).filterMap id).prod =
      ∏ k ∈ Finset.Icc 1 i, g k := by
  intro i
  induction i with
  | zero =>
    intro hin
    have hl : 0 < xs.length := by rw [hlen]; exact hin
    have hx0 : xs[0]? = some none := by
      rw [List.getElem?_eq_getElem hl]
      rw [List.getD_eq_getElem?_getD, List.getElem?_eq_getElem hl] at h0
      exact congrArg some h0
    rw [List.take_succ, hx0]
    simp
  | succ i ih =>
    intro hin
    have hi : i < n := lt_trans (Nat.lt_succ_self i) hin
    have hl : i + 1 < xs.length := by rw [hlen]; exact hin
    have hx : xs[i + 1]? = some (some (g (i + 1))) := by
      rw [List.getElem?_eq_getElem hl]
      have := hk (i + 1) (Nat.le_add_left 1 i) hin
      rw [List.getD_eq_getElem?_getD, List.getElem?_eq_getElem hl] at this
      exact congrArg some this
    rw [List.take_succ, hx]
    rw [List.filterMap_append, List.prod_append]
    rw [ih hi]
    rw [Finset.prod_Icc_succ_top (Nat.le_add_left 1 i) g]
    simp

/-- Defined entries of the cumulative product are non-negative as soon as
every defined entry of the input is. -/
theorem pcumprod_nonneg (xs : Col) (hx : ∀ v : ℚ, some v ∈ xs → 0 ≤ v)
    (i : ℕ) (v : ℚ) (hi : i < xs.length)
    (h : (pcumprod xs).getD i none = some v) : 0 ≤ v := by
  cases hcase : xs.getD i none with
  | none => rw [pcumprod_getD_eq_none xs i hi hcase] at h; cases h
  | some u =>
    rw [pcumprod_getD_eq_some xs i hi u hcase] at h
    have hv : v = ((xs.take (i + 1)).filterMap id).prod :=
      (Option.some.inj h).symm
    rw [hv]
    refine List.prod_nonneg ?_
    intro a ha
    rcases List.mem_filterMap.mp ha with ⟨b, hb, hbx⟩
    cases b with
    | none => cases hbx
    | some y =>
      cases hbx
      exact hx a (List.mem_of_mem_take hb)

/-- Every defined entry of `1 + zs` is non-negative when every defined
entry of `zs` exceeds `-1` (NaN entries read as the harmless default 0). -/
theorem onePlus_defined_nonneg (zs : Col)
    (hz : ∀ x ∈ zs, -1 < x.getD 0) :
    ∀ v : ℚ, some v ∈ onePlus zs → 0 ≤ v := by
  intro v hv
  unfold onePlus at hv
  rcases List.mem_map.mp hv with ⟨x, hxm, hxe⟩
  cases x with
  | none => cases hxe
  | some u =>
    have hvu : v = 1 + u := (Option.some.inj hxe).symm
    have := hz _ hxm
    simp only [Option.getD_some] at this
    rw [hvu]
    linarith

/-- C2 counterexample: on the two-bar price series `[100, 110]` the
cumulative market curve `(1 + Close.pct_change()).cumprod()` is NaN at
index 0 — not `1.0` as the claim states — because
`1 + Daily_Return[0] = 1 + NaN = NaN` and `cumprod` keeps NaN positions
NaN. -/
theorem c2_cumulative_start_counterexample :
    (pcumprod (onePlus (pctChange (([(100 : ℚ), 110]).map some)))).getD 0
      none = none ∧
    (pcumprod (onePlus (pctChange (([(100 : ℚ), 110]).map some)))).getD 0
      none ≠ some 1 := by
  decide

/-- C2 amended: the cumulative market curve is NaN at index 0 (and the
cumulative strategy curve is NaN at indices 0 and 1); at every bar
`1 ≤ i < n` the market curve equals `∏ k ∈ [1, i], (1 + DailyReturn[k])`;
and every *defined* entry of either curve is non-negative whenever every
defined daily (resp. strategy) return exceeds `-1`. -/
theorem c2_cumulative_curves (closes : List ℚ) (w : ℕ) (short long : Col)
    (hn : 2 ≤ closes.length)
    (hdr : ∀ x ∈ pctChange (closes.map some), -1 < x.getD 0)
    (hsr : ∀ x ∈ strategyReturn
        (positionList (signalList w closes.length short long))
        (pctChange (closes.map some)), -1 < x.getD 0) :
    (pcumprod (onePlus (pctChange (closes.map some)))).getD 0 none = none ∧
    (pcumprod (onePlus (strategyReturn
        (positionList (signalList w closes.length short long))
        (pctChange (closes.map some))))).getD 0 none = none ∧
    (pcumprod (onePlus (strategyReturn
        (positionList (signalList w closes.length short long))
        (pctChange (closes.map some))))).getD 1 none = none ∧
    (∀ i, 1 ≤ i → i < closes.length →
      (pcumprod (onePlus (pctChange (closes.map some)))).getD i none =
        some (∏ k ∈ Finset.Icc 1 i,
          (1 + (closes.getD k 0 / closes.getD (k - 1) 0 - 1)))) ∧
    (∀ i v, i < closes.length →
      (pcumprod (onePlus (pctChange (closes.map some)))).getD i none =
        some v → 0 ≤ v) ∧
    (∀ i v, i < closes.length →
      (pcumprod (onePlus (strategyReturn
        (positionList (signalList w closes.length short long))
        (pctChange (closes.map some))))).getD i none = some v → 0 ≤ v) := by
  have h0 : 0 < closes.length := lt_of_lt_of_le (by decide) hn
  have h1 : 1 < closes.length := lt_of_lt_of_le (by decide) hn
  have hdrlen : (pctChange (closes.map some)).length = closes.length := by
    rw [length_pctChange, List.length_map]
  have hsrlen : (strategyReturn
      (positionList (signalList w closes.length short long))
      (pctChange (closes.map some))).length = closes.length := by
    rw [length_strategyReturn, hdrlen]
  have hdr0 : (pctChange (closes.map some)).getD 0 none = none :=
    pctChange_getD_zero _ (by rw [List.length_map]; exact h0)
  have hsr0 : (strategyReturn
      (positionList (signalList w closes.length short long))
      (pctChange (closes.map some))).getD 0 none = none :=
    strategyReturn_getD_zero _ _ (by rw [hdrlen]; exact h0)
  have hsr1 : (strategyReturn
      (positionList (signalList w closes.length short long))
      (pctChange (closes.map some))).getD 1 none = none :=
    strategyReturn_getD_one _ _ (by rw [hdrlen]; exact h1)
      (positionList_getD_zero _ (by rw [length_signalList]; exact h0))
  have hxm0 : (onePlus (pctChange (closes.map some))).getD 0 none = none := by
    rw [getD_onePlus _ 0 (by rw [hdrlen]; exact h0), hdr0]
    rfl
  have hys0 : (onePlus (strategyReturn
      (positionList (signalList w closes.length short long))
      (pctChange (closes.map some)))).getD 0 none = none := by
    rw [getD_onePlus _ 0 (by rw [hsrlen]; exact h0), hsr0]
    rfl
  have hys1 : (onePlus (strategyReturn
      (positionList (signalList w closes.length short long))
      (pctChange (closes.map some)))).getD 1 none = none := by
    rw [getD_onePlus _ 1 (by rw [hsrlen]; exact h1), hsr1]
    rfl
  have hxmlen : (onePlus (pctChange (closes.map some))).length =
      closes.length := by rw [length_onePlus, hdrlen]
  have hyslen : (onePlus (strategyReturn
      (positionList (signalList w closes.length short long))
      (pctChange (closes.map some)))).length = closes.length := by
    rw [length_onePlus, hsrlen]
  refine ⟨?_, ?_, ?_, ?_, ?_, ?_⟩
  · exact pcumprod_getD_eq_none _ 0 (by rw [hxmlen]; exact h0) hxm0
  · exact pcumprod_getD_eq_none _ 0 (by rw [hyslen]; exact h0) hys0
  · exact pcumprod_getD_eq_none _ 1 (by rw [hyslen]; exact h1) hys1
  · intro i hi1 hin
    have hxk : ∀ k, 1 ≤ k → k < closes.length →
        (onePlus (pctChange (closes.map some))).getD k none =
          some (1 + (closes.getD k 0 / closes.getD (k - 1) 0 - 1)) := by
      intro k hk1 hkn
      rw [getD_onePlus _ k (by rw [hdrlen]; exact hkn)]
      rw [pctChange_getD_some closes k hk1 hkn]
      rfl
    rw [pcumprod_getD_eq_some _ i (by rw [hxmlen]; exact hin) _
      (hxk i hi1 hin)]
    rw [prod_take_formula (onePlus (pctChange (closes.map some)))
      (fun k => 1 + (closes.getD k 0 / closes.getD (k - 1) 0 - 1))
      closes.length hxmlen hxm0 hxk i hin]
  · intro i v hin h
    exact pcumprod_nonneg _ (onePlus_defined_nonneg _ hdr) i v
      (by rw [hxmlen]; exact hin) h
  · intro i v hin h
    exact pcumprod_nonneg _ (onePlus_defined_nonneg _ hsr) i v
      (by rw [hyslen]; exact hin) h

/-- Witness for the amended C2 on closes `[100, 110, 99]`, window 1. -/
theorem c2_cumulative_curves_witness :
    (pcumprod (onePlus (pctChange (([(100 : ℚ), 110, 99]).map
      some)))).getD 0 none = none ∧
    (pcumprod (onePlus (strategyReturn
        (positionList (signalList 1 ([(100 : ℚ), 110, 99]).length
          [some 1, some 2, some 3] [some 0, some 0, some 9]))
        (pctChange (([(100 : ℚ), 110, 99]).map some))))).getD 0 none =
      none ∧
    (pcumprod (onePlus (strategyReturn
        (positionList (signalList 1 ([(100 : ℚ), 110, 99]).length
          [some 1, some 2, some 3] [some 0, some 0, some 9]))
        (pctChange (([(100 : ℚ), 110, 99]).map some))))).getD 1 none =
      none ∧
    (∀ i, 1 ≤ i → i < ([(100 : ℚ), 110, 99]).length →
      (pcumprod (onePlus (pctChange (([(100 : ℚ), 110, 99]).map
        some)))).getD i none =
        some (∏ k ∈ Finset.Icc 1 i,
          (1 + (([(100 : ℚ), 110, 99]).getD k 0 /
            ([(100 : ℚ), 110, 99]).getD (k - 1) 0 - 1)))) ∧
    (∀ i v, i < ([(100 : ℚ), 110, 99]).length →
      (pcumprod (onePlus (pctChange (([(100 : ℚ), 110, 99]).map
        some)))).getD i none = some v → 0 ≤ v) ∧
    (∀ i v, i < ([(100 : ℚ), 110, 99]).length →
      (pcumprod (onePlus (strategyReturn
        (positionList (signalList 1 ([(100 : ℚ), 110, 99]).length
          [some 1, some 2, some 3] [some 0, some 0, some 9]))
        (pctChange (([(100 : ℚ), 110, 99]).map some))))).getD i none =
        some v → 0 ≤ v) :=
  c2_cumulative_curves [100, 110, 99] 1 [some 1, some 2, some 3]
    [some 0, some 0, some 9] (by decide)
    (by
      intro x hx
      have h : pctChange (([(100 : ℚ), 110, 99]).map some) =
          [none, some ((110 : ℚ) / 100 - 1), some ((99 : ℚ) / 110 - 1)] :=
        rfl
      rw [h] at hx
      simp only [List.mem_cons, List.not_mem_nil, or_false] at hx
      rcases hx with rfl | rfl | rfl <;> norm_num)
    (by
      intro x hx
      have h : strategyReturn
          (positionList (signalList 1 ([(100 : ℚ), 110, 99]).length
            [some 1, some 2, some 3] [some 0, some 0, some 9]))
          (pctChange (([(100 : ℚ), 110, 99]).map some)) =
          [none, none, some (((1 : ℚ) - 0) * ((99 : ℚ) / 110 - 1))] := rfl
      rw [h] at hx
      simp only [List.mem_cons, List.not_mem_nil, or_false] at hx
      rcases hx with rfl | rfl | rfl <;> norm_num)

/-- `delta.where(delta > 0, 0)` (line 92): pandas `where` keeps a value
only where the condition holds; a NaN compares false and is replaced by
0, so the leading NaN delta becomes a 0 gain. -/
def gains (delta : Col) : Col :=
  delta.map fun d =>
    match d with
    | some v => some (if 0 < v then v else 0)
    | none => some 0

/-- `(-delta.where(delta < 0, 0))` (line 93): the magnitude of negative
deltas, 0 elsewhere, the NaN delta again replaced by 0. -/
def losses (delta : Col) : Col :=
  delta.map fun d =>
    match d with
    | some v => some (if v < 0 then -v else 0)
    | none => some 0

/-- One RSI cell, `100 - 100/(1 + gain/loss)` (lines 94-95), with the
IEEE semantics of the source's float division made explicit: when the
mean loss is 0 and the mean gain is not, `gain/0 = ±∞` and
`100 - 100/(1 ± ∞) = 100` exactly; when both means are 0, `0/0 = NaN`
and the cell is NaN. -/
def rsiCell (g l : Option ℚ) : Option ℚ :=
  match g, l with
  | some g, some l =>
    if l = 0 then (if g = 0 then none else some 100)
    else some (100 - 100 / (1 + g / l))
  | _, _ => none

/-- The RSI column computed by `calculate_indicators` (lines 91-95). -/
def rsiList (closes : Col) : Col :=
  List.zipWith rsiCell (rollingMean 14 (gains (pdiff closes)))
    (rollingMean 14 (losses (pdiff closes)))

theorem length_pdiff (xs : Col) : (pdiff xs).length = xs.length := by
  simp [pdiff]

theorem length_rollingMean (w : ℕ) (xs : Col) :
    (rollingMean w xs).length = xs.length := by
  simp [rollingMean]

theorem length_gains (xs : Col) : (gains xs).length = xs.length := by
  simp [gains]

theorem length_losses (xs : Col) : (losses xs).length = xs.length := by
  simp [losses]

theorem length_rsiList (closes : Col) :
    (rsiList closes).length = closes.length := by
  unfold rsiList
  rw [List.length_zipWith, length_rollingMean, length_rollingMean,
    length_gains, length_losses, length_pdiff, min_self]

theorem getD_zipWith (f : Option ℚ → Option ℚ → Option ℚ)
    (xs ys : List (Option ℚ)) (i : ℕ) (hx : i < xs.length)
    (hy : i < ys.length) :
    (List.zipWith f xs ys).getD i none =
      f (xs.getD i none) (ys.getD i none) := by
  induction xs generalizing ys i with
  | nil => cases hx
  | cons a xs ih =>
    cases ys with
    | nil => cases hy
    | cons b ys =>
      cases i with
      | zero => rfl
      | succ i =>
        simp only [List.zipWith_cons_cons, List.getD_cons_succ]
        exact ih ys i (Nat.lt_of_succ_lt_succ hx) (Nat.lt_of_succ_lt_succ hy)

theorem rollingMean_getD (w : ℕ) (xs : Col) (i : ℕ) (hi : i < xs.length)
    (hw : ¬ i + 1 < w)
    (hall : ((xs.take (i + 1)).drop (i + 1 - w)).all Option.isSome = true) :
    (rollingMean w xs).getD i none =
      some ((((xs.take (i + 1)).drop (i + 1 - w)).filterMap id).sum /
        (w : ℚ)) := by
  unfold rollingMean
  rw [getD_range_map _ _ i hi, if_neg hw, if_pos hall]

theorem rollingMean_getD_nonneg (w : ℕ) (xs : Col)
    (hx : ∀ v : ℚ, some v ∈ xs → 0 ≤ v) (i : ℕ) (v : ℚ)
    (h : (rollingMean w xs).getD i none = some v) : 0 ≤ v := by
  by_cases hi : i < xs.length
  · unfold rollingMean at h
    rw [getD_range_map _ _ i hi] at h
    by_cases h1 : i + 1 < w
    · rw [if_pos h1] at h; cases h
    · rw [if_neg h1] at h
      by_cases h2 :
          ((xs.take (i + 1)).drop (i + 1 - w)).all Option.isSome = true
      · rw [if_pos h2] at h
        rw [(Option.some.inj h).symm]
        apply div_nonneg _ (Nat.cast_nonneg w)
        refine List.sum_nonneg ?_
        intro a ha
        rcases List.mem_filterMap.mp ha with ⟨b, hb, hbx⟩
        cases b with
        | none => cases hbx
        | some y =>
          cases hbx
          exact hx a (List.mem_of_mem_take (List.mem_of_mem_drop hb))
      · rw [if_neg h2] at h; cases h
  · rw [List.getD_eq_default _ _
      (by rw [length_rollingMean]; omega)] at h
    cases h

theorem gains_defined_nonneg (delta : Col) :
    ∀ v : ℚ, some v ∈ gains delta → 0 ≤ v := by
  intro v hv
  rcases List.mem_map.mp hv with ⟨d, _, hd⟩
  cases d with
  | none => rw [← Option.some.inj hd]
  | some u =>
    rw [← Option.some.inj hd]
    by_cases h0 : 0 < u
    · rw [if_pos h0]; exact le_of_lt h0
    · rw [if_neg h0]

theorem losses_defined_nonneg (delta : Col) :
    ∀ v : ℚ, some v ∈ losses delta → 0 ≤ v := by
  intro v hv
  rcases List.mem_map.mp hv with ⟨d, _, hd⟩
  cases d with
  | none => rw [← Option.some.inj hd]
  | some u =>
    rw [← Option.some.inj hd]
    by_cases h0 : u < 0
    · rw [if_pos h0]; linarith
    · rw [if_neg h0]

theorem gains_all_isSome (d : Col) : (gains d).all Option.isSome = true := by
  rw [List.all_eq_true]
  intro x hx
  rcases List.mem_map.mp hx with ⟨a, _, rfl⟩
  cases a <;> rfl

theorem losses_all_isSome (d : Col) :
    (losses d).all Option.isSome = true := by
  rw [List.all_eq_true]
  intro x hx
  rcases List.mem_map.mp hx with ⟨a, _, rfl⟩
  cases a <;> rfl

/-- When every delta in the trailing 14-bar window is exactly 0, both
rolling means are 0, `rs = 0/0` is NaN and the RSI cell is NaN. -/
theorem rsi_zero_window (closes : Col) (i : ℕ) (h13 : 13 ≤ i)
    (hin : i < closes.length)
    (hzero : ∀ x ∈ ((pdiff closes).take (i + 1)).drop (i + 1 - 14),
      x = some 0) :
    (rsiList closes).getD i none = none := by
  have hglen : (gains (pdiff closes)).length = closes.length := by
    rw [length_gains, length_pdiff]
  have hllen : (losses (pdiff closes)).length = closes.length := by
    rw [length_losses, length_pdiff]
  have hgw : ((gains (pdiff closes)).take (i + 1)).drop (i + 1 - 14) =
      gains (((pdiff closes).take (i + 1)).drop (i + 1 - 14)) := by
    unfold gains
    rw [← List.map_take, ← List.map_drop]
  have hlw : ((losses (pdiff closes)).take (i + 1)).drop (i + 1 - 14) =
      losses (((pdiff closes).take (i + 1)).drop (i + 1 - 14)) := by
    unfold losses
    rw [← List.map_take, ← List.map_drop]
  have hiw : ¬ i + 1 < 14 := by omega
  have hgall :
      ∀ x ∈ gains (((pdiff closes).take (i + 1)).drop (i + 1 - 14)),
        x = some 0 := by
    intro x hx
    rcases List.mem_map.mp hx with ⟨a, ham, rfl⟩
    have := hzero a ham
    rw [this]
    show some (if (0 : ℚ) < 0 then (0 : ℚ) else 0) = some 0
    norm_num
  have hlall :
      ∀ x ∈ losses (((pdiff closes).take (i + 1)).drop (i + 1 - 14)),
        x = some 0 := by
    intro x hx
    rcases List.mem_map.mp hx with ⟨a, ham, rfl⟩
    have := hzero a ham
    rw [this]
    show some (if (0 : ℚ) < 0 then -(0 : ℚ) else 0) = some 0
    norm_num
  have hgsum :
      ((gains (((pdiff closes).take (i + 1)).drop
        (i + 1 - 14))).filterMap id).sum = 0 := by
    refine List.sum_eq_zero ?_
    intro a ha
    rcases List.mem_filterMap.mp ha with ⟨b, hb, hbx⟩
    have := hgall b hb
    rw [this] at hbx
    exact (Option.some.inj hbx).symm
  have hlsum :
      ((losses (((pdiff closes).take (i + 1)).drop
        (i + 1 - 14))).filterMap id).sum = 0 := by
    refine List.sum_eq_zero ?_
    intro a ha
    rcases List.mem_filterMap.mp ha with ⟨b, hb, hbx⟩
    have := hlall b hb
    rw [this] at hbx
    exact (Option.some.inj hbx).symm
  have hgm : (rollingMean 14 (gains (pdiff closes))).getD i none =
      some 0 := by
    rw [rollingMean_getD 14 _ i (by rw [hglen]; exact hin) hiw
      (by rw [hgw]; exact gains_all_isSome _)]
    rw [hgw, hgsum, zero_div]
  have hlm : (rollingMean 14 (losses (pdiff closes))).getD i none =
      some 0 := by
    rw [rollingMean_getD 14 _ i (by rw [hllen]; exact hin) hiw
      (by rw [hlw]; exact losses_all_isSome _)]
    rw [hlw, hlsum, zero_div]
  unfold rsiList
  rw [getD_zipWith _ _ _ i (by rw [length_rollingMean, hglen]; exact hin)
    (by rw [length_rollingMean, hllen]; exact hin)]
  rw [hgm, hlm]
  simp [rsiCell]

/-- C6 amended: every defined RSI value lies in `[0, 100]`; at a bar
whose trailing 14-delta window is all defined and non-negative, the RSI
is exactly 100 when at least one delta is strictly positive, and is NaN
(undefined, not 100) when every delta in the window is zero — the `0/0`
case the claim overlooks. -/
theorem c6_rsi_bounds (closes : Col) :
    (∀ i v, (rsiList closes).getD i none = some v → 0 ≤ v ∧ v ≤ 100) ∧
    (∀ i, 13 ≤ i → i < closes.length →
      (∀ x ∈ ((pdiff closes).take (i + 1)).drop (i + 1 - 14),
        ∃ d : ℚ, x = some d ∧ 0 ≤ d) →
      (∃ x ∈ ((pdiff closes).take (i + 1)).drop (i + 1 - 14),
        ∃ d : ℚ, x = some d ∧ 0 < d) →
      (rsiList closes).getD i none = some 100) ∧
    (∀ i, 13 ≤ i → i < closes.length →
      (∀ x ∈ ((pdiff closes).take (i + 1)).drop (i + 1 - 14), x = some 0) →
      (rsiList closes).getD i none = none) := by
  have hglen : (gains (pdiff closes)).length = closes.length := by
    rw [length_gains, length_pdiff]
  have hllen : (losses (pdiff closes)).length = closes.length := by
    rw [length_losses, length_pdiff]
  have hgw : ∀ i : ℕ,
      ((gains (pdiff closes)).take (i + 1)).drop (i + 1 - 14) =
        gains (((pdiff closes).take (i + 1)).drop (i + 1 - 14)) := by
    intro i
    unfold gains
    rw [← List.map_take, ← List.map_drop]
  have hlw : ∀ i : ℕ,
      ((losses (pdiff closes)).take (i + 1)).drop (i + 1 - 14) =
        losses (((pdiff closes).take (i + 1)).drop (i + 1 - 14)) := by
    intro i
    unfold losses
    rw [← List.map_take, ← List.map_drop]
  refine ⟨?_, ?_, ?_⟩
  · intro i v h
    by_cases hin : i < closes.length
    · unfold rsiList at h
      rw [getD_zipWith _ _ _ i (by rw [length_rollingMean, hglen]; exact hin)
        (by rw [length_rollingMean, hllen]; exact hin)] at h
      rcases hgm : (rollingMean 14 (gains (pdiff closes))).getD i none
        with _ | g
      · rw [hgm] at h
        rcases hlm : (rollingMean 14 (losses (pdiff closes))).getD i none
          with _ | l <;> rw [hlm] at h <;> cases h
      · rw [hgm] at h
        rcases hlm : (rollingMean 14 (losses (pdiff closes))).getD i none
          with _ | l
        · rw [hlm] at h; cases h
        · rw [hlm] at h
          have hg0 : 0 ≤ g :=
            rollingMean_getD_nonneg 14 _ (gains_defined_nonneg _) i g hgm
          have hl0 : 0 ≤ l :=
            rollingMean_getD_nonneg 14 _ (losses_defined_nonneg _) i l hlm
          simp only [rsiCell] at h
          by_cases hlz : l = 0
          · rw [if_pos hlz] at h
            by_cases hgz : g = 0
            · rw [if_pos hgz] at h; cases h
            · rw [if_neg hgz] at h
              rw [← Option.some.inj h]
              norm_num
          · rw [if_neg hlz] at h
            have hlpos : 0 < l := lt_of_le_of_ne hl0 (Ne.symm hlz)
            have hgl : 0 ≤ g / l := div_nonneg hg0 (le_of_lt hlpos)
            have hfrac_pos : 0 < 100 / (1 + g / l) := by positivity
            have hfrac_le : 100 / (1 + g / l) ≤ 100 := by
              rw [div_le_iff₀ (by linarith)]
              nlinarith
            rw [← Option.some.inj h]
            constructor <;> linarith
    · rw [List.getD_eq_default _ _ (by rw [length_rsiList]; omega)] at h
      cases h
  · intro i h13 hin hge hpos
    have hiw : ¬ i + 1 < 14 := by omega
    have hlall :
        ∀ x ∈ losses (((pdiff closes).take (i + 1)).drop (i + 1 - 14)),
          x = some 0 := by
      intro x hx
      rcases List.mem_map.mp hx with ⟨a, ham, rfl⟩
      rcases hge a ham with ⟨d, rfl, hd0⟩
      show some (if d < 0 then -d else 0) = some 0
      rw [if_neg (not_lt.mpr hd0)]
    have hlsum :
        ((losses (((pdiff closes).take (i + 1)).drop
          (i + 1 - 14))).filterMap id).sum = 0 := by
      refine List.sum_eq_zero ?_
      intro a ha
      rcases List.mem_filterMap.mp ha with ⟨b, hb, hbx⟩
      have := hlall b hb
      rw [this] at hbx
      exact (Option.some.inj hbx).symm
    have hlm : (rollingMean 14 (losses (pdiff closes))).getD i none =
        some 0 := by
      rw [rollingMean_getD 14 _ i (by rw [hllen]; exact hin) hiw
        (by rw [hlw i]; exact losses_all_isSome _)]
      rw [hlw i, hlsum, zero_div]
    rcases hpos with ⟨x0, hx0m, d0, rfl, hd0⟩
    have hmem : d0 ∈ (gains (((pdiff closes).take (i + 1)).drop
        (i + 1 - 14))).filterMap id := by
      refine List.mem_filterMap.mpr ⟨some d0, ?_, rfl⟩
      refine List.mem_map.mpr ⟨some d0, hx0m, ?_⟩
      show some (if 0 < d0 then d0 else 0) = some d0
      rw [if_pos hd0]
    have hnn : ∀ a ∈ (gains (((pdiff closes).take (i + 1)).drop
        (i + 1 - 14))).filterMap id, 0 ≤ a := by
      intro a ha
      rcases List.mem_filterMap.mp ha with ⟨b, hb, hbx⟩
      cases b with
      | none => cases hbx
      | some y => cases hbx; exact gains_defined_nonneg _ a hb
    have hgsum : 0 < ((gains (((pdiff closes).take (i + 1)).drop
        (i + 1 - 14))).filterMap id).sum :=
      lt_of_lt_of_le hd0 (List.single_le_sum hnn d0 hmem)
    have hgm : (rollingMean 14 (gains (pdiff closes))).getD i none =
        some (((gains (((pdiff closes).take (i + 1)).drop
          (i + 1 - 14))).filterMap id).sum / ((14 : ℕ) : ℚ)) := by
      rw [rollingMean_getD 14 _ i (by rw [hglen]; exact hin) hiw
        (by rw [hgw i]; exact gains_all_isSome _)]
      rw [hgw i]
    unfold rsiList
    rw [getD_zipWith _ _ _ i (by rw [length_rollingMean, hglen]; exact hin)
      (by rw [length_rollingMean, hllen]; exact hin)]
    rw [hgm, hlm]
    have hidx : i + 1 - 14 = i - 13 := by omega
    rw [hidx] at hgsum
    simp [rsiCell]
    exact fun hc => (ne_of_gt hgsum) hc
  · exact fun i h13 hin hzero => rsi_zero_window closes i h13 hin hzero

/-- Witness for the amended C6: eight bars at 100 followed by seven bars
at 200 put one strictly positive delta inside the 14-delta window of bar
14, so the RSI there is exactly 100. -/
theorem c6_rsi_bounds_witness :
    (rsiList [some (100 : ℚ), some 100, some 100, some 100, some 100,
      some 100, some 100, some 100, some 200, some 200, some 200, some 200,
      some 200, some 200, some 200]).getD 14 none = some 100 :=
  (c6_rsi_bounds [some (100 : ℚ), some 100, some 100, some 100, some 100,
      some 100, some 100, some 100, some 200, some 200, some 200, some 200,
      some 200, some 200, some 200]).2.1 14 (by norm_num) (by norm_num)
    (by
      intro x hx
      have hwin : ((pdiff [some (100 : ℚ), some 100, some 100, some 100,
          some 100, some 100, some 100, some 100, some 200, some 200,
          some 200, some 200, some 200, some 200, some 200]).take
          (14 + 1)).drop (14 + 1 - 14) =
          [some ((100 : ℚ) - 100), some ((100 : ℚ) - 100),
            some ((100 : ℚ) - 100), some ((100 : ℚ) - 100),
            some ((100 : ℚ) - 100), some ((100 : ℚ) - 100),
            some ((100 : ℚ) - 100), some ((200 : ℚ) - 100),
            some ((200 : ℚ) - 200), some ((200 : ℚ) - 200),
            some ((200 : ℚ) - 200), some ((200 : ℚ) - 200),
            some ((200 : ℚ) - 200), some ((200 : ℚ) - 200)] := rfl
      rw [hwin] at hx
      simp only [List.mem_cons, List.not_mem_nil, or_false] at hx
      rcases hx with rfl | rfl | rfl | rfl | rfl | rfl | rfl | rfl | rfl |
        rfl | rfl | rfl | rfl | rfl <;> exact ⟨_, rfl, by norm_num⟩)
    (by
      refine ⟨some ((200 : ℚ) - 100), ?_, 200 - 100, rfl, by norm_num⟩
      have hwin : ((pdiff [some (100 : ℚ), some 100, some 100, some 100,
          some 100, some 100, some 100, some 100, some 200, some 200,
          some 200, some 200, some 200, some 200, some 200]).take
          (14 + 1)).drop (14 + 1 - 14) =
          [some ((100 : ℚ) - 100), some ((100 : ℚ) - 100),
            some ((100 : ℚ) - 100), some ((100 : ℚ) - 100),
            some ((100 : ℚ) - 100), some ((100 : ℚ) - 100),
            some ((100 : ℚ) - 100), some ((200 : ℚ) - 100),
            some ((200 : ℚ) - 200), some ((200 : ℚ) - 200),
            some ((200 : ℚ) - 200), some ((200 : ℚ) - 200),
            some ((200 : ℚ) - 200), some ((200 : ℚ) - 200)] := rfl
      rw [hwin]
      simp)

/-- C6 counterexample: on a flat series of fifteen bars at 100 every one
of the 14 trailing deltas at bar 14 is defined and non-negative (all are
0), yet the RSI at bar 14 is NaN — `rs = 0/0` — and not 100 as the claim
requires. -/
theorem c6_flat_series_counterexample :
    (∀ x ∈ ((pdiff (List.replicate 15 (some (100 : ℚ)))).take
        (14 + 1)).drop (14 + 1 - 14), ∃ d : ℚ, x = some d ∧ 0 ≤ d) ∧
    (rsiList (List.replicate 15 (some (100 : ℚ)))).getD 14 none = none ∧
    (rsiList (List.replicate 15 (some (100 : ℚ)))).getD 14 none ≠
      some 100 := by
  have hz : ∀ x ∈ ((pdiff (List.replicate 15 (some (100 : ℚ)))).take
      (14 + 1)).drop (14 + 1 - 14), x = some 0 := by
    intro x hx
    have hwin : ((pdiff (List.replicate 15 (some (100 : ℚ)))).take
        (14 + 1)).drop (14 + 1 - 14) =
        List.replicate 14 (some ((100 : ℚ) - 100)) := rfl
    rw [hwin] at hx
    rw [List.eq_of_mem_replicate hx]
    norm_num
  refine ⟨fun x hx => ⟨0, hz x hx, le_refl 0⟩, ?_, ?_⟩
  · exact rsi_zero_window _ 14 (by norm_num) (by simp) hz
  · intro hc
    rw [rsi_zero_window _ 14 (by norm_num) (by simp) hz] at hc
    cases hc

/-- `Cumulative_Strategy.cummax()` (line 211) with pandas skip-NaN
semantics: NaN positions stay NaN, defined positions hold the maximum of
the defined entries so far. -/
def pcummax (xs : Col) : Col :=
  (List.range xs.length).map fun i =>
    match xs.getD i none with
    | none => none
    | some _ => ((xs.take (i + 1)).filterMap id).max?

/-- `(Cumulative_Strategy - cumulative_max) / cumulative_max`
(line 212), with NaN propagation. -/
def drawdownList (curve : Col) : Col :=
  List.zipWith (fun c m =>
    match c, m with
    | some c, some m => some ((c - m) / m)
    | _, _ => none) curve (pcummax curve)

/-- `drawdown.min()` (line 231), skipping NaN entries. -/
def maxDrawdown (curve : Col) : Option ℚ :=
  ((drawdownList curve).filterMap id).min?

theorem length_pcummax (xs : Col) : (pcummax xs).length = xs.length := by
  simp [pcummax]

theorem length_drawdownList (curve : Col) :
    (drawdownList curve).length = curve.length := by
  unfold drawdownList
  rw [List.length_zipWith, length_pcummax, min_self]

theorem pcummax_getD_some (xs : Col) (i : ℕ) (hi : i < xs.length) (c : ℚ)
    (hc : xs.getD i none = some c) :
    (pcummax xs).getD i none = ((xs.take (i + 1)).filterMap id).max? := by
  unfold pcummax
  rw [getD_range_map _ _ i hi, hc]

theorem max?_spec (l : List ℚ) (m : ℚ) (h : l.max? = some m) :
    m ∈ l ∧ ∀ b ∈ l, b ≤ m := by
  have : Std.Antisymm (α := ℚ) (· ≤ ·) := ⟨fun h h2 => le_antisymm h h2⟩
  rw [List.max?_eq_some_iff] at h
  · exact h
  all_goals simp [le_total]

theorem getD_mem_take (xs : Col) (i : ℕ) (hi : i < xs.length) :
    xs.getD i none ∈ xs.take (i + 1) := by
  rw [List.getD_eq_getElem?_getD, List.getElem?_eq_getElem hi]
  have hlen : i < (xs.take (i + 1)).length := by
    rw [List.length_take]
    omega
  have heq : (xs.take (i + 1))[i] = xs[i] := List.getElem_take xs
  rw [Option.getD_some, ← heq]
  exact List.getElem_mem hlen

/-- C8 counterexample: on a cumulative curve that is negative, the
running maximum is negative and the division flips the sign — the curve
`[-1, -2]` yields a drawdown of `+1` at index 1, violating
`Drawdown ≤ 0`.  (Negative cumulative values are reachable: a strategy
return below `-1` makes the cumulative product change sign, e.g.
`Position = -1` while the price more than doubles.) -/
theorem c8_negative_curve_counterexample :
    (drawdownList [some (-1 : ℚ), some (-2)]).getD 1 none = some 1 ∧
    ¬ ((1 : ℚ) ≤ 0) := by
  constructor
  · have h1 : (drawdownList [some (-1 : ℚ), some (-2)]).getD 1 none =
        some (((-2 : ℚ) - -1) / -1) := rfl
    rw [h1]
    norm_num
  · norm_num

/-- C8 amended: for a cumulative strategy curve with all defined values
strictly positive (the normal regime, e.g. whenever every defined
strategy return exceeds -1), every defined drawdown is ≤ 0; the drawdown
is exactly 0 at every bar that attains its running maximum; and the
reported maximum drawdown is the minimum of the defined drawdown
entries. -/
theorem c8_drawdown_invariant (curve : Col)
    (hpos : ∀ v : ℚ, some v ∈ curve → 0 < v) :
    (∀ i v, (drawdownList curve).getD i none = some v → v ≤ 0) ∧
    (∀ i v m, i < curve.length → curve.getD i none = some v →
      (pcummax curve).getD i none = some m → v = m →
      (drawdownList curve).getD i none = some 0) ∧
    maxDrawdown curve = ((drawdownList curve).filterMap id).min? := by
  refine ⟨?_, ?_, rfl⟩
  · intro i v h
    by_cases hi : i < curve.length
    · unfold drawdownList at h
      rw [getD_zipWith _ _ _ i hi (by rw [length_pcummax]; exact hi)] at h
      rcases hc : curve.getD i none with _ | c
      · rw [hc] at h
        rcases hm : (pcummax curve).getD i none with _ | m <;>
          rw [hm] at h <;> cases h
      · rw [hc] at h
        rcases hm : (pcummax curve).getD i none with _ | m
        · rw [hm] at h; cases h
        · rw [hm] at h
          have hmax : ((curve.take (i + 1)).filterMap id).max? = some m := by
            rw [← hm, pcummax_getD_some curve i hi c hc]
          obtain ⟨hmem, hub⟩ := max?_spec _ m hmax
          have hcmem : c ∈ (curve.take (i + 1)).filterMap id :=
            List.mem_filterMap.mpr ⟨some c, hc ▸ getD_mem_take curve i hi,
              rfl⟩
          have hcm : c ≤ m := hub c hcmem
          have hm0 : 0 < m := by
            rcases List.mem_filterMap.mp hmem with ⟨b, hb, hbx⟩
            cases b with
            | none => cases hbx
            | some y =>
              cases hbx
              exact hpos m (List.mem_of_mem_take hb)
          rw [← Option.some.inj h]
          exact div_nonpos_of_nonpos_of_nonneg (by linarith) (le_of_lt hm0)
    · rw [List.getD_eq_default _ _
        (by rw [length_drawdownList]; omega)] at h
      cases h
  · intro i v m hi hc hm hvm
    unfold drawdownList
    rw [getD_zipWith _ _ _ i hi (by rw [length_pcummax]; exact hi), hc, hm]
    rw [hvm]
    show some ((m - m) / m) = some 0
    rw [sub_self, zero_div]

/-- Witness for the amended C8 on the positive curve `[2, 1, 3]`. -/
theorem c8_drawdown_invariant_witness :
    (∀ i v, (drawdownList [some (2 : ℚ), some 1, some 3]).getD i none =
      some v → v ≤ 0) ∧
    (∀ i v m, i < ([some (2 : ℚ), some 1, some 3] : Col).length →
      ([some (2 : ℚ), some 1, some 3] : Col).getD i none = some v →
      (pcummax [some (2 : ℚ), some 1, some 3]).getD i none = some m →
      v = m →
      (drawdownList [some (2 : ℚ), some 1, some 3]).getD i none =
        some 0) ∧
    maxDrawdown [some (2 : ℚ), some 1, some 3] =
      ((drawdownList [some (2 : ℚ), some 1, some 3]).filterMap id).min? :=
  c8_drawdown_invariant [some (2 : ℚ), some 1, some 3]
    (by
      intro v hv
      simp only [List.mem_cons, List.not_mem_nil, or_false] at hv
      rcases hv with h | h | h <;> rw [Option.some.inj h] <;> norm_num)

/-- Defined (non-NaN) entries of a column, as pandas aggregations see
them with the default `skipna=True`. -/
def definedVals (xs : Col) : List ℚ := xs.filterMap id

/-- `Series.mean()` (line 233): NaN when there is no defined entry. -/
def pmean (xs : Col) : Option ℚ :=
  if (definedVals xs).length = 0 then none
  else some ((definedVals xs).sum / ((definedVals xs).length : ℚ))

/-- The sample variance behind `Series.std()` (lines 232-233, pandas
default `ddof = 1`): NaN with fewer than two defined entries; the std is
its square root, and std = 0 exactly when this variance is 0. -/
def pvarSample (xs : Col) : Option ℚ :=
  if (definedVals xs).length < 2 then none
  else some (((definedVals xs).map (fun x =>
      (x - (definedVals xs).sum / ((definedVals xs).length : ℚ)) ^ 2)).sum /
    (((definedVals xs).length : ℚ) - 1))

/-- Classification of the float produced by
`mean / std * sqrt(252)`.  The finite case carries the mean and sample
variance; the displayed float is `mean / sqrt(variance) * sqrt(252)`. -/
inductive SharpeVal
  | nan
  | posInf
  | negInf
  | finite (mean variance : ℚ)
deriving DecidableEq

/-- The Sharpe computation of the Risk Analysis block (line 233).  The
source computes the ratio unconditionally — there is no zero-std check
and no error branch, so the result is always `Except.ok`: numpy float
division by `0.0` silently yields `±inf` (NaN when the mean is also 0),
and division by a NaN std yields NaN. -/
def sharpe_ratio (rets : Col) : Except String SharpeVal :=
  Except.ok <|
    match pmean rets, pvarSample rets with
    | none, _ => SharpeVal.nan
    | some _, none => SharpeVal.nan
    | some m, some v =>
      if v = 0 then
        (if 0 < m then SharpeVal.posInf
         else if m < 0 then SharpeVal.negInf
         else SharpeVal.nan)
      else SharpeVal.finite m v

/-- C7 counterexample: a constant strategy-return series has zero
standard deviation, yet the Risk Analysis block signals no error — it
silently evaluates to `+∞` (`mean/0.0` with a positive mean). -/
theorem c7_degenerate_counterexample :
    pvarSample [some (1 / 100 : ℚ), some (1 / 100), some (1 / 100)] =
      some 0 ∧
    sharpe_ratio [some (1 / 100 : ℚ), some (1 / 100), some (1 / 100)] =
      Except.ok SharpeVal.posInf ∧
    (∀ e : String,
      sharpe_ratio [some (1 / 100 : ℚ), some (1 / 100), some (1 / 100)] ≠
        Except.error e) := by
  have hd : definedVals [some (1 / 100 : ℚ), some (1 / 100),
      some (1 / 100)] = [1 / 100, 1 / 100, 1 / 100] := rfl
  have hv : pvarSample [some (1 / 100 : ℚ), some (1 / 100),
      some (1 / 100)] = some 0 := by
    unfold pvarSample
    rw [hd]
    norm_num [List.sum_cons, List.sum_nil, List.map_cons, List.map_nil]
  have hm : pmean [some (1 / 100 : ℚ), some (1 / 100), some (1 / 100)] =
      some (1 / 100) := by
    unfold pmean
    rw [hd]
    norm_num
  refine ⟨hv, ?_, ?_⟩
  · unfold sharpe_ratio
    rw [hm, hv]
    norm_num
  · intro e h
    unfold sharpe_ratio at h
    cases h

/-- C7 amended: the code never signals an error for a degenerate return
series.  When the sample variance of the strategy returns is 0 the
block yields `Except.ok` of `+∞`, `-∞` or NaN according to the sign of
the mean; when the variance is defined and non-zero it yields the
finite ratio (its mean and variance); an `Except.error` is never
produced. -/
theorem c7_sharpe_silent (rets : Col) :
    (pvarSample rets = some 0 →
      ∃ m : ℚ, pmean rets = some m ∧
        sharpe_ratio rets = Except.ok
          (if 0 < m then SharpeVal.posInf
           else if m < 0 then SharpeVal.negInf else SharpeVal.nan)) ∧
    (∀ m v, pmean rets = some m → pvarSample rets = some v → v ≠ 0 →
      sharpe_ratio rets = Except.ok (SharpeVal.finite m v)) ∧
    (∀ e : String, sharpe_ratio rets ≠ Except.error e) := by
  refine ⟨?_, ?_, ?_⟩
  · intro hv
    have hlen : ¬ (definedVals rets).length < 2 := by
      intro hc
      unfold pvarSample at hv
      rw [if_pos hc] at hv
      cases hv
    have hm : pmean rets =
        some ((definedVals rets).sum / ((definedVals rets).length : ℚ)) := by
      unfold pmean
      rw [if_neg (by omega)]
    refine ⟨_, hm, ?_⟩
    unfold sharpe_ratio
    rw [hm, hv]
    dsimp only
    rw [if_pos rfl]
  · intro m v hm hv hvne
    unfold sharpe_ratio
    rw [hm, hv]
    dsimp only
    rw [if_neg hvne]
  · intro e h
    unfold sharpe_ratio at h
    cases h

/-- Witness for the amended C7: the constant series `[1, 1, 1]` has zero
variance and positive mean, and the block silently returns `+∞`. -/
theorem c7_sharpe_silent_witness :
    sharpe_ratio [some (1 : ℚ), some 1, some 1] =
      Except.ok SharpeVal.posInf := by
  have hd : definedVals [some (1 : ℚ), some 1, some 1] = [1, 1, 1] := rfl
  have hv : pvarSample [some (1 : ℚ), some 1, some 1] = some 0 := by
    unfold pvarSample
    rw [hd]
    norm_num [List.sum_cons, List.sum_nil, List.map_cons, List.map_nil]
  obtain ⟨m, hm, hs⟩ := (c7_sharpe_silent [some (1 : ℚ), some 1, some 1]).1 hv
  have hp : pmean [some (1 : ℚ), some 1, some 1] = some 1 := by
    unfold pmean
    rw [hd]
    norm_num [List.sum_cons, List.sum_nil]
  rw [hp] at hm
  have hm1 : m = 1 := (Option.some.inj hm).symm
  rw [hm1] at hs
  rw [if_pos (by norm_num)] at hs
  exact hs

/-- The trading part of one Run Simulation loop iteration
(lines 262-273): on `Position == 1` buy `cash // open` whole shares at
this bar's Open when at least one is affordable, on `Position == -1`
sell the whole holding, otherwise hold.  Returns the new
`(Cash, Shares)`.  A NaN Position compares false to both 1 and -1. -/
def tradeAt (commission cash shares : ℚ) (pos : Option ℚ)
    (openPx : ℚ) : ℚ × ℚ :=
  if pos = some 1 then
    (if 0 < ⌊cash / openPx⌋ then
      (cash - ((⌊cash / openPx⌋ : ℚ) * openPx + commission),
       shares + (⌊cash / openPx⌋ : ℚ))
     else (cash, shares))
  else if pos = some (-1) then
    (if 0 < shares then (cash + (shares * openPx - commission), 0)
     else (cash, shares))
  else (cash, shares)

/-- The Run Simulation loop over bars 1..n-1 (lines 258-279): each row
carries the previous cash/shares forward, trades at the bar's Open, and
marks `Total = Cash + Shares * Close`.  Each input row is
`(Position, Open, Close)`; each output row `(Cash, Shares, Total)`. -/
def simRows (commission cash shares : ℚ) :
    List (Option ℚ × ℚ × ℚ) → List (ℚ × ℚ × ℚ)
  | [] => []
  | (pos, openPx, closePx) :: rest =>
    match tradeAt commission cash shares pos openPx with
    | (cash2, shares2) =>
      (cash2, shares2, cash2 + shares2 * closePx) ::
        simRows commission cash2 shares2 rest

/-- The Run Simulation block (lines 252-279): every ledger row is seeded
with `Cash = capital, Shares = 0, Total = capital` and the loop then
overwrites rows 1..n-1 in order, so row 0 keeps the initial state. -/
def simulate (capital commission : ℚ) (pos : Col)
    (opens closes : List ℚ) : List (ℚ × ℚ × ℚ) :=
  if pos.length = 0 then []
  else (capital, 0, capital) ::
    simRows commission capital 0
      (List.zip (pos.drop 1) (List.zip (opens.drop 1) (closes.drop 1)))

/-- With no entry or exit signal in the remaining bars the loop never
trades: every row keeps the incoming cash and shares. -/
theorem simRows_no_trade (commission cash shares : ℚ)
    (rows : List (Option ℚ × ℚ × ℚ))
    (h : ∀ r ∈ rows, r.1 ≠ some 1 ∧ r.1 ≠ some (-1)) :
    simRows commission cash shares rows =
      rows.map (fun r => (cash, shares, cash + shares * r.2.2)) := by
  induction rows with
  | nil => rfl
  | cons r rest ih =>
    obtain ⟨p, o, c⟩ := r
    obtain ⟨h1, h2⟩ := h (p, o, c) (List.mem_cons_self _ _)
    have ht : tradeAt commission cash shares p o = (cash, shares) := by
      unfold tradeAt
      rw [if_neg h1, if_neg h2]
    simp only [simRows, ht, List.map_cons]
    exact congrArg _ (ih fun r hr => h r (List.mem_cons_of_mem _ hr))

/-- The account-state invariant of the loop at zero commission: shares
stay a non-negative whole number, cash stays non-negative as long as
every Open is positive, and the marked total stays non-negative as long
as every Close is also non-negative. -/
theorem simRows_invariant (rows : List (Option ℚ × ℚ × ℚ)) :
    ∀ cash shares : ℚ, 0 ≤ cash → (∃ n : ℕ, shares = (n : ℚ)) →
    (∀ r ∈ rows, 0 < r.2.1 ∧ 0 ≤ r.2.2) →
    ∀ x ∈ simRows 0 cash shares rows,
      (∃ n : ℕ, x.2.1 = (n : ℚ)) ∧ 0 ≤ x.1 ∧ 0 ≤ x.2.2 := by
  induction rows with
  | nil => intro cash shares _ _ _ x hx; cases hx
  | cons r rest ih =>
    intro cash shares hcash ⟨n, hn⟩ hoc x hx
    obtain ⟨p, o, c⟩ := r
    obtain ⟨ho, hc⟩ := hoc (p, o, c) (List.mem_cons_self _ _)
    have hstep : 0 ≤ (tradeAt 0 cash shares p o).1 ∧
        (∃ m : ℕ, (tradeAt 0 cash shares p o).2 = (m : ℚ)) := by
      unfold tradeAt
      by_cases hp1 : p = some 1
      · rw [if_pos hp1]
        by_cases hb : 0 < ⌊cash / o⌋
        · rw [if_pos hb]
          constructor
          · have hfl : (⌊cash / o⌋ : ℚ) ≤ cash / o := Int.floor_le _
            have : (⌊cash / o⌋ : ℚ) * o ≤ cash / o * o :=
              mul_le_mul_of_nonneg_right hfl (le_of_lt ho)
            rw [div_mul_cancel₀ cash (ne_of_gt ho)] at this
            simp only
            linarith
          · refine ⟨n + (⌊cash / o⌋).toNat, ?_⟩
            simp only
            rw [hn, Nat.cast_add]
            congr 1
            exact_mod_cast (Int.toNat_of_nonneg (le_of_lt hb)).symm
        · rw [if_neg hb]
          exact ⟨hcash, n, hn⟩
      · rw [if_neg hp1]
        by_cases hp2 : p = some (-1)
        · rw [if_pos hp2]
          by_cases hs : 0 < shares
          · rw [if_pos hs]
            constructor
            · simp only
              nlinarith
            · exact ⟨0, by simp⟩
          · rw [if_neg hs]
            exact ⟨hcash, n, hn⟩
        · rw [if_neg hp2]
          exact ⟨hcash, n, hn⟩
    obtain ⟨hc2, m, hm⟩ := hstep
    have hsh : 0 ≤ (tradeAt 0 cash shares p o).2 := by
      rw [hm]; exact Nat.cast_nonneg m
    simp only [simRows] at hx
    rcases hx' : tradeAt 0 cash shares p o with ⟨cash2, shares2⟩
    rw [hx'] at hx
    rw [hx'] at hc2 hm hsh
    simp only [List.mem_cons] at hx
    rcases hx with rfl | hx
    · exact ⟨⟨m, hm⟩, hc2, by positivity⟩
    · exact ih cash2 shares2 hc2 ⟨m, hm⟩
        (fun r hr => hoc r (List.mem_cons_of_mem _ hr)) x hx

/-- C4: the ledger starts at
`Cash = InitialCapital, Shares = 0, Total = InitialCapital`, and when
the Position column is never `+1` or `-1` after bar 0 the whole ledger
stays at the initial state, every `Total` equal to the initial
capital. -/
theorem c4_paper_ledger (capital commission : ℚ) (pos : Col)
    (opens closes : List ℚ) (hne : 0 < pos.length) :
    (simulate capital commission pos opens closes).getD 0 (0, 0, 0) =
      (capital, 0, capital) ∧
    ((∀ p ∈ pos.drop 1, p ≠ some 1 ∧ p ≠ some (-1)) →
      ∀ x ∈ simulate capital commission pos opens closes,
        x = (capital, 0, capital)) := by
  have hsim : simulate capital commission pos opens closes =
      (capital, 0, capital) :: simRows commission capital 0
        (List.zip (pos.drop 1)
          (List.zip (opens.drop 1) (closes.drop 1))) := by
    unfold simulate
    rw [if_neg (by omega)]
  constructor
  · rw [hsim]; rfl
  · intro hnotrade x hx
    rw [hsim] at hx
    have hrows : ∀ r ∈ List.zip (pos.drop 1)
        (List.zip (opens.drop 1) (closes.drop 1)),
        r.1 ≠ some 1 ∧ r.1 ≠ some (-1) := by
      intro r hr
      obtain ⟨p, oc⟩ := r
      exact hnotrade p (List.of_mem_zip hr).1
    rw [simRows_no_trade commission capital 0 _ hrows] at hx
    simp only [List.mem_cons, List.mem_map] at hx
    rcases hx with rfl | ⟨r, _, rfl⟩
    · rfl
    · simp

/-- Witness for C4 at capital 10, commission 5, three flat bars. -/
theorem c4_paper_ledger_witness :
    (simulate 10 5 [none, some 0, none] [(1 : ℚ), 2, 3]
      [(4 : ℚ), 5, 6]).getD 0 (0, 0, 0) = (10, 0, 10) ∧
    ((∀ p ∈ ([none, some 0, none] : Col).drop 1,
        p ≠ some 1 ∧ p ≠ some (-1)) →
      ∀ x ∈ simulate 10 5 [none, some 0, none] [(1 : ℚ), 2, 3]
        [(4 : ℚ), 5, 6], x = (10, 0, 10)) :=
  c4_paper_ledger 10 5 [none, some 0, none] [1, 2, 3] [4, 5, 6]
    (by norm_num)

/-- C5 counterexample: with zero commission and strictly positive Open
prices the total can still go negative when a Close is negative — after
the buy at bar 1 the account holds 10 shares marked at Close `-5`, so
`Total = -50 < 0`. -/
theorem c5_negative_total_counterexample :
    (∀ o ∈ [(1 : ℚ), 1], 0 < o) ∧
    (simulate 10 0 [none, some 1] [(1 : ℚ), 1] [(1 : ℚ), -5]).getD 1
      (0, 0, 0) = (0, 10, -50) ∧
    ¬ ((0 : ℚ) ≤ -50) := by
  refine ⟨?_, ?_, by norm_num⟩
  · intro o ho
    simp only [List.mem_cons, List.not_mem_nil, or_false] at ho
    rcases ho with rfl | rfl <;> norm_num
  · have ht : tradeAt 0 10 0 (some 1) 1 = (0, 10) := by
      unfold tradeAt
      rw [if_pos rfl]
      norm_num
    have hz : List.zip (([none, some 1] : Col).drop 1)
        (List.zip ([(1 : ℚ), 1].drop 1) ([(1 : ℚ), -5].drop 1)) =
        [(some 1, 1, -5)] := rfl
    unfold simulate
    rw [if_neg (by norm_num), hz]
    simp only [simRows, ht]
    norm_num

/-- C5 amended: at zero commission, with strictly positive Open prices
and non-negative Close prices, every ledger row has a non-negative
whole-number share count, non-negative cash, and non-negative total.
(Without the Close condition the total itself can be negative: cash and
shares are still fine, but the mark-to-market `Shares * Close` is
not.) -/
theorem c5_account_nonneg (capital : ℚ) (pos : Col)
    (opens closes : List ℚ) (hcap : 0 ≤ capital)
    (hopen : ∀ o ∈ opens, 0 < o) (hclose : ∀ c ∈ closes, 0 ≤ c) :
    ∀ x ∈ simulate capital 0 pos opens closes,
      (∃ n : ℕ, x.2.1 = (n : ℚ)) ∧ 0 ≤ x.1 ∧ 0 ≤ x.2.2 := by
  intro x hx
  unfold simulate at hx
  by_cases h0 : pos.length = 0
  · rw [if_pos h0] at hx; cases hx
  · rw [if_neg h0] at hx
    simp only [List.mem_cons] at hx
    rcases hx with rfl | hx
    · exact ⟨⟨0, by simp⟩, hcap, hcap⟩
    · refine simRows_invariant _ capital 0 hcap ⟨0, by simp⟩ ?_ x hx
      intro r hr
      obtain ⟨p, o, c⟩ := r
      have h1 := List.of_mem_zip hr
      have h2 := List.of_mem_zip h1.2
      exact ⟨hopen o (List.mem_of_mem_drop h2.1),
        hclose c (List.mem_of_mem_drop h2.2)⟩

/-- Witness for the amended C5: the post-buy ledger row `(0, 10, 50)`
of a concrete run with positive prices satisfies the invariant. -/
theorem c5_account_nonneg_witness :
    (∃ n : ℕ, (((0 : ℚ), (10 : ℚ), (50 : ℚ)) : ℚ × ℚ × ℚ).2.1 = (n : ℚ)) ∧
    0 ≤ (((0 : ℚ), (10 : ℚ), (50 : ℚ)) : ℚ × ℚ × ℚ).1 ∧
    0 ≤ (((0 : ℚ), (10 : ℚ), (50 : ℚ)) : ℚ × ℚ × ℚ).2.2 :=
  c5_account_nonneg 10 [none, some 1] [1, 1] [1, 5] (by norm_num)
    (by
      intro o ho
      simp only [List.mem_cons, List.not_mem_nil, or_false] at ho
      rcases ho with rfl | rfl <;> norm_num)
    (by
      intro c hc
      simp only [List.mem_cons, List.not_mem_nil, or_false] at hc
      rcases hc with rfl | rfl <;> norm_num)
    (0, 10, 50)
    (by
      have ht : tradeAt 0 10 0 (some 1) 1 = (0, 10) := by
        unfold tradeAt
        rw [if_pos rfl]
        norm_num
      have hz : List.zip (([none, some 1] : Col).drop 1)
          (List.zip ([(1 : ℚ), 1].drop 1) ([(1 : ℚ), 5].drop 1)) =
          [(some 1, 1, 5)] := rfl
      unfold simulate
      rw [if_neg (by norm_num), hz]
      simp only [simRows, ht]
      norm_num)

/-- `Close.ewm(span, adjust=False).mean()` (lines 98-101): the standard
exponential recursion `m₀ = x₀`, `mᵢ = mᵢ₋₁ + α (xᵢ - mᵢ₋₁)` with
`α = 2/(span+1)`, seeded at the first defined value; a NaN position
repeats the previous mean (the pipeline's Close column holds no NaN,
which is the only case the claims exercise). -/
def ewmAux (a : ℚ) : Option ℚ → List (Option ℚ) → Col
  | _, [] => []
  | none, none :: xs => none :: ewmAux a none xs
  | none, some x :: xs => some x :: ewmAux a (some x) xs
  | some m, none :: xs => some m :: ewmAux a (some m) xs
  | some m, some x :: xs =>
    some (m + a * (x - m)) :: ewmAux a (some (m + a * (x - m))) xs

def ewmMean (a : ℚ) (xs : Col) : Col := ewmAux a none xs

/-- `MACD = EMA(12) - EMA(26)` of Close (lines 98-100);
`α = 2/(span+1)` gives `2/13` and `2/27`. -/
def macdList (closes : Col) : Col :=
  List.zipWith osub (ewmMean (2 / 13) closes) (ewmMean (2 / 27) closes)

/-- A DataFrame of this pipeline: an association list of named columns.
`data['X'] = col` replaces the column in place when the name already
exists and appends it otherwise. -/
abbrev Frame := List (String × Col)

/-- Column lookup `data[name]`, the first binding of the name. -/
def getCol : Frame → String → Option Col
  | [], _ => none
  | (k, c) :: rest, n => if k = n then some c else getCol rest n

def getColD (f : Frame) (name : String) : Col := (getCol f name).getD []

def hasCol (f : Frame) (name : String) : Bool := (getCol f name).isSome

/-- Column assignment `data[name] = c`. -/
def setCol : Frame → String → Col → Frame
  | [], n, c => [(n, c)]
  | (m, old) :: rest, n, c =>
    if m = n then (n, c) :: rest else (m, old) :: setCol rest n c

/-- `calculate_indicators` (lines 85-103): assigns `SMA_20`, `SMA_50`,
`RSI`, `MACD` and `Signal_Line` into the frame it was given — there is
no `.copy()` — and returns that same frame. -/
def calculate_indicators (f : Frame) : Frame :=
  setCol
    (setCol
      (setCol
        (setCol (setCol f "SMA_20" (rollingMean 20 (getColD f "Close")))
          "SMA_50" (rollingMean 50 (getColD f "Close")))
        "RSI" (rsiList (getColD f "Close")))
      "MACD" (macdList (getColD f "Close")))
    "Signal_Line" (ewmMean (2 / 10) (macdList (getColD f "Close")))

/-- The state of the *caller's* frame after `calculate_indicators(data)`
returns: the function assigns into `data` without copying, so the
caller's object is the returned, augmented frame. -/
def calculate_indicators_inputAfter (f : Frame) : Frame :=
  calculate_indicators f

/-- `backtest_strategy` (lines 139-162).  Line 140 copies the input;
lines 143-148 reuse the existing `SMA_20`/`SMA_50` columns as the short
and long averages whenever `SMA_20` is present and only otherwise
compute fresh rolling means from the window parameters; lines 150-160
add the signal, position, return and cumulative columns. -/
def backtest_strategy (f : Frame) (sma_short sma_long : ℕ) : Frame :=
  setCol
    (setCol
      (setCol
        (setCol
          (setCol
            (setCol
              (setCol
                (setCol f "SMA_short"
                  (if hasCol f "SMA_20" then getColD f "SMA_20"
                   else rollingMean sma_short (getColD f "Close")))
                "SMA_long"
                (if hasCol f "SMA_20" then getColD f "SMA_50"
                 else rollingMean sma_long (getColD f "Close")))
              "Signal"
              ((signalList sma_short (getColD f "Close").length
                (if hasCol f "SMA_20" then getColD f "SMA_20"
                 else rollingMean sma_short (getColD f "Close"))
                (if hasCol f "SMA_20" then getColD f "SMA_50"
                 else rollingMean sma_long (getColD f "Close"))).map some))
            "Position"
            (positionList (signalList sma_short (getColD f "Close").length
              (if hasCol f "SMA_20" then getColD f "SMA_20"
               else rollingMean sma_short (getColD f "Close"))
              (if hasCol f "SMA_20" then getColD f "SMA_50"
               else rollingMean sma_long (getColD f "Close")))))
          "Daily_Return" (pctChange (getColD f "Close")))
        "Strategy_Return"
        (strategyReturn
          (positionList (signalList sma_short (getColD f "Close").length
            (if hasCol f "SMA_20" then getColD f "SMA_20"
             else rollingMean sma_short (getColD f "Close"))
            (if hasCol f "SMA_20" then getColD f "SMA_50"
             else rollingMean sma_long (getColD f "Close"))))
          (pctChange (getColD f "Close"))))
      "Cumulative_Market" (pcumprod (onePlus (pctChange (getColD f "Close")))))
    "Cumulative_Strategy"
    (pcumprod (onePlus (strategyReturn
      (positionList (signalList sma_short (getColD f "Close").length
        (if hasCol f "SMA_20" then getColD f "SMA_20"
         else rollingMean sma_short (getColD f "Close"))
        (if hasCol f "SMA_20" then getColD f "SMA_50"
         else rollingMean sma_long (getColD f "Close"))))
      (pctChange (getColD f "Close")))))

/-- The state of the caller's frame after
`backtest_strategy(data, ...)` returns: line 140 executes
`data = data.copy()`, so every later assignment lands in the copy and
the caller's frame is unchanged. -/
def backtest_strategy_inputAfter (f : Frame) (_sma_short _sma_long : ℕ) :
    Frame := f

theorem getCol_setCol (f : Frame) (n m : String) (c : Col) :
    getCol (setCol f n c) m = if m = n then some c else getCol f m := by
  induction f with
  | nil =>
    simp only [setCol, getCol]
    split_ifs with h1 h2 h3
    · rfl
    · exact absurd h1.symm h2
    · exact absurd h3.symm h1
    · rfl
  | cons kv rest ih =>
    obtain ⟨k, old⟩ := kv
    simp only [setCol]
    by_cases hk : k = n
    · rw [if_pos hk]
      subst hk
      simp only [getCol]
      split_ifs with h1 h2 h3
      · rfl
      · exact absurd h1.symm h2
      · exact absurd h3.symm h1
      · rfl
    · rw [if_neg hk]
      simp only [getCol]
      by_cases hkm : k = m
      · rw [if_pos hkm]
        by_cases hmn : m = n
        · exact absurd (hkm.trans hmn) hk
        · rw [if_neg hmn, if_pos hkm]
      · rw [if_neg hkm, ih]
        by_cases hmn : m = n
        · rw [if_pos hmn, if_pos hmn]
        · rw [if_neg hmn, if_neg hmn, if_neg hkm]

/-- C9 counterexample: `calculate_indicators` is not pure in its input —
it assigns into the frame it receives (no `.copy()`), so after the call
the caller's frame has gained an `SMA_20` column and differs from the
original input. -/
theorem c9_inplace_counterexample :
    calculate_indicators_inputAfter [("Close", [some (1 : ℚ), some 2])] ≠
      [("Close", [some (1 : ℚ), some 2])] ∧
    hasCol (calculate_indicators_inputAfter
      [("Close", [some (1 : ℚ), some 2])]) "SMA_20" = true ∧
    hasCol [("Close", [some (1 : ℚ), some 2])] "SMA_20" = false := by
  refine ⟨?_, rfl, rfl⟩
  intro h
  have hh : (true : Bool) = false := by
    calc true = hasCol (calculate_indicators_inputAfter
          [("Close", [some (1 : ℚ), some 2])]) "SMA_20" := rfl
      _ = hasCol [("Close", [some (1 : ℚ), some 2])] "SMA_20" := by rw [h]
      _ = false := rfl
  cases hh

/-- C9 amended: `backtest_strategy` does compute in a copy (line 140),
so its caller's frame is unchanged; but `calculate_indicators` mutates
its input in place — after the call the caller's frame is the returned
frame, carrying the five added indicator columns. -/
theorem c9_frame_effects :
    (∀ (f : Frame) (w l : ℕ), backtest_strategy_inputAfter f w l = f) ∧
    (∀ f : Frame,
      calculate_indicators_inputAfter f = calculate_indicators f ∧
      hasCol (calculate_indicators_inputAfter f) "SMA_20" = true ∧
      hasCol (calculate_indicators_inputAfter f) "SMA_50" = true ∧
      hasCol (calculate_indicators_inputAfter f) "RSI" = true ∧
      hasCol (calculate_indicators_inputAfter f) "MACD" = true ∧
      hasCol (calculate_indicators_inputAfter f) "Signal_Line" = true) := by
  refine ⟨fun _ _ _ => rfl, fun f => ⟨rfl, ?_, ?_, ?_, ?_, ?_⟩⟩
  all_goals
    unfold calculate_indicators_inputAfter calculate_indicators hasCol
    simp [getCol_setCol]

/-- C10: when the input frame already carries an `SMA_20` column,
`backtest_strategy` uses the existing `SMA_20`/`SMA_50` columns as the
short and long averages for every value of the window parameters, while
the `sma_short` parameter still forces `Signal = 0` on the warm-up bars;
fresh rolling means from the parameters are used only when `SMA_20` is
absent. -/
theorem c10_sma20_reuse (f : Frame) :
    (hasCol f "SMA_20" = true →
      (∀ w l : ℕ,
        getCol (backtest_strategy f w l) "SMA_short" =
          some (getColD f "SMA_20") ∧
        getCol (backtest_strategy f w l) "SMA_long" =
          some (getColD f "SMA_50")) ∧
      (∀ w l i : ℕ, i < w → i < (getColD f "Close").length →
        (getColD (backtest_strategy f w l) "Signal").getD i none =
          some 0)) ∧
    (hasCol f "SMA_20" = false →
      ∀ w l : ℕ,
        getCol (backtest_strategy f w l) "SMA_short" =
          some (rollingMean w (getColD f "Close")) ∧
        getCol (backtest_strategy f w l) "SMA_long" =
          some (rollingMean l (getColD f "Close"))) := by
  have hshort : ∀ w l : ℕ,
      getCol (backtest_strategy f w l) "SMA_short" =
        some (if hasCol f "SMA_20" then getColD f "SMA_20"
          else rollingMean w (getColD f "Close")) := by
    intro w l
    unfold backtest_strategy
    simp [getCol_setCol]
  have hlong : ∀ w l : ℕ,
      getCol (backtest_strategy f w l) "SMA_long" =
        some (if hasCol f "SMA_20" then getColD f "SMA_50"
          else rollingMean l (getColD f "Close")) := by
    intro w l
    unfold backtest_strategy
    simp [getCol_setCol]
  have hsig : ∀ w l : ℕ,
      getCol (backtest_strategy f w l) "Signal" =
        some ((signalList w (getColD f "Close").length
          (if hasCol f "SMA_20" then getColD f "SMA_20"
           else rollingMean w (getColD f "Close"))
          (if hasCol f "SMA_20" then getColD f "SMA_50"
           else rollingMean l (getColD f "Close"))).map some) := by
    intro w l
    unfold backtest_strategy
    simp [getCol_setCol]
  refine ⟨fun h => ⟨fun w l => ⟨?_, ?_⟩, fun w l i hiw hin => ?_⟩,
    fun h w l => ⟨?_, ?_⟩⟩
  · rw [hshort w l, h, if_pos rfl]
  · rw [hlong w l, h, if_pos rfl]
  · have hcol : getColD (backtest_strategy f w l) "Signal" =
        (signalList w (getColD f "Close").length
          (if hasCol f "SMA_20" then getColD f "SMA_20"
           else rollingMean w (getColD f "Close"))
          (if hasCol f "SMA_20" then getColD f "SMA_50"
           else rollingMean l (getColD f "Close"))).map some := by
      unfold getColD
      rw [hsig w l]
      rfl
    rw [hcol]
    rw [getD_map_some _ i (by rw [length_signalList]; exact hin)]
    unfold signalList
    rw [getD_range_map _ _ i hin, if_pos hiw]
  · rw [hshort w l, h]
    rfl
  · rw [hlong w l, h]
    rfl

/-- Witness for C10: a frame that already has `SMA_20`/`SMA_50` columns
keeps them as the averages for two different parameter pairs. -/
theorem c10_sma20_reuse_witness :
    getCol (backtest_strategy [("Close", [some (1 : ℚ), some 2]),
      ("SMA_20", [some (3 : ℚ), some 4]), ("SMA_50", [some (5 : ℚ), some 6])]
      5 20) "SMA_short" =
      some (getColD [("Close", [some (1 : ℚ), some 2]),
        ("SMA_20", [some (3 : ℚ), some 4]),
        ("SMA_50", [some (5 : ℚ), some 6])] "SMA_20") ∧
    getCol (backtest_strategy [("Close", [some (1 : ℚ), some 2]),
      ("SMA_20", [some (3 : ℚ), some 4]), ("SMA_50", [some (5 : ℚ), some 6])]
      9 40) "SMA_short" =
      some (getColD [("Close", [some (1 : ℚ), some 2]),
        ("SMA_20", [some (3 : ℚ), some 4]),
        ("SMA_50", [some (5 : ℚ), some 6])] "SMA_20") :=
  ⟨(((c10_sma20_reuse [("Close", [some (1 : ℚ), some 2]),
      ("SMA_20", [some (3 : ℚ), some 4]),
      ("SMA_50", [some (5 : ℚ), some 6])]).1 (by rfl)).1 5 20).1,
   (((c10_sma20_reuse [("Close", [some (1 : ℚ), some 2]),
      ("SMA_20", [some (3 : ℚ), some 4]),
      ("SMA_50", [some (5 : ℚ), some 6])]).1 (by rfl)).1 9 40).1⟩

end Algo
